import Mathlib

/-!
Verification development for the leaper indexing and discovery core.

The definitions below are shallow embeddings of the Rust source:
pure computations become Lean functions, the SurrealDB state touched by
the indexer and the schema events becomes explicit record-passing, and
OS probes (is_symlink / is_dir / is_file / read_link) become an
environment parameter.  Fallible steps return Option or Except.
-/

namespace Leaper

/-! ## Rust path helpers

A filesystem path is modelled as its list of components (the string
stored in the database is handled separately where the source works on
strings).  The stem and extension functions follow the semantics of
Rust std::path: the extension is the portion of the file name after the
final dot, unless the part before that dot is empty, in which case
there is no extension and the whole file name is the stem. -/

abbrev RustPath := List String

/-- Split a character list at its last dot: returns the part before and
the part after the last dot, or none when no dot occurs. -/
def lastDotSplit : List Char → Option (List Char × List Char)
  | [] => none
  | c :: rest =>
    match lastDotSplit rest with
    | some (b, a) => some (c :: b, a)
    | none => if c = '.' then some ([], rest) else none

/-- Rust file name extension rule applied to a file name string. -/
def extOfFileName (n : String) : Option String :=
  match lastDotSplit n.toList with
  | none => none
  | some (before, a) => if before = [] then none else some (String.mk a)

/-- Rust file stem rule applied to a file name string. -/
def stemOfFileName (n : String) : String :=
  match lastDotSplit n.toList with
  | none => n
  | some (before, _) => if before = [] then n else String.mk before

/-- Rust Path::file_name, on the component list model. -/
def rustFileName (p : RustPath) : Option String := p.getLast?

/-- Rust Path::parent, on the component list model. -/
def rustParent (p : RustPath) : Option RustPath :=
  if p = [] then none else some p.dropLast

/-- Rust Path::extension composed with to_str (always UTF-8 here). -/
def rustPathExtension (p : RustPath) : Option String :=
  (rustFileName p).bind extOfFileName

/-- Rust Path::file_stem composed with to_str. -/
def rustPathStem (p : RustPath) : Option String :=
  (rustFileName p).map stemOfFileName

/-- Split a character list on a separator character; mirrors splitting
a string on a one-character separator (an empty input gives one empty
chunk, and separators at the ends give empty chunks). -/
def splitCharList (sep : Char) : List Char → List (List Char)
  | [] => [[]]
  | c :: rest =>
    match splitCharList sep rest with
    | [] => if c = sep then [[], []] else [[c]]
    | w :: ws => if c = sep then [] :: w :: ws else (c :: w) :: ws

/-- String splitting on a one-character separator. -/
def strSplitChar (sep : Char) (s : String) : List String :=
  (splitCharList sep s.toList).map String.mk

/-- Whether a string holds a given character. -/
def strContainsChar (c : Char) (s : String) : Bool :=
  s.toList.contains c

/-- Value of an all-digit string as a number. -/
def digitsToNat (cs : List Char) : Nat :=
  cs.foldl (fun acc c => acc * 10 + (c.toNat - 48)) 0

/-- ASCII lowercasing of a string. -/
def asciiLower (s : String) : String :=
  String.mk (s.toList.map Char.toLower)

/-! ## C4: schema statements

Transcription of the DDL strings embedded in the table definitions of
src/leaper-db/src/fs.rs and src/leaper-db/src/apps.rs.  Each
SurrealTable derive also defines its own document table; those appear
as non-relation defineTable entries. -/

inductive SchemaStmt where
  | defineTable (name : String) (relation : Bool)
  | defineIndex (idxName table : String) (columns : List String) (unique : Bool)
  | defineEvent (evName table : String)
deriving DecidableEq

/-- DDL attached to the FSNode table definition (leaper-db/src/fs.rs). -/
def fsNodeTableSql : List SchemaStmt :=
  [ .defineTable "fs_node" false
  , .defineTable "is_symlink" true
  , .defineTable "is_dir" true
  , .defineTable "is_parent_of" true ]

/-- DDL attached to the Directory table definition. -/
def directoryTableSql : List SchemaStmt := [ .defineTable "directory" false ]

/-- DDL attached to the File table definition. -/
def fileTableSql : List SchemaStmt :=
  [ .defineTable "file" false
  , .defineTable "is_file" true
  , .defineTable "is_icon" true
  , .defineTable "is_app" true
  , .defineEvent "icon_file_added" "is_file" ]

/-- DDL attached to the Symlink table definition. -/
def symlinkTableSql : List SchemaStmt :=
  [ .defineTable "symlink" false
  , .defineTable "is_symlink_of" true ]

/-- DDL attached to the AppEntry table definition (leaper-db/src/apps.rs). -/
def appTableSql : List SchemaStmt :=
  [ .defineTable "app" false
  , .defineTable "has_icon" true
  , .defineIndex "app_dep_ind" "app" ["desktop_entry_path"] true
  , .defineIndex "app_name_ind" "app" ["name"] true
  , .defineEvent "app_entry_added" "app" ]

/-- DDL attached to the AppIcon table definition. -/
def iconTableSql : List SchemaStmt :=
  [ .defineTable "icon" false
  , .defineIndex "icon_path_ind" "icon" ["path"] true
  , .defineEvent "icon_added" "icon" ]

/-- The full schema applied at initialization. -/
def leaperSchema : List SchemaStmt :=
  fsNodeTableSql ++ directoryTableSql ++ fileTableSql ++ symlinkTableSql ++
    appTableSql ++ iconTableSql

/-- Whether the schema holds a unique index on the given table column. -/
def hasUniqueIndex (schema : List SchemaStmt) (table column : String) : Bool :=
  schema.any fun stmt =>
    match stmt with
    | .defineIndex _ t cols u => t == table && cols == [column] && u
    | _ => false

/-! ## C5: the icon_file_added dims computation

Transcription of the event body in leaper-db/src/fs.rs: split the
fs_node path on slashes, keep the components containing the letter x,
split each on x, keep the splits of length two whose parts are both
numeric, build a record taking both width and height from part zero,
and take element zero of the result. -/

structure IconDims where
  width : Nat
  height : Nat
deriving DecidableEq

/-- SurrealDB string::is::numeric on the digit-only strings relevant
here: nonempty and all decimal digits. -/
def surrealIsNumeric (s : String) : Bool :=
  !s.toList.isEmpty && s.toList.all (fun c => c.isDigit)

/-- The dims value computed by the icon_file_added event for a node path. -/
def dimsOfPath (path : String) : Option IconDims :=
  ((((strSplitChar '/' path).filter (fun comp => strContainsChar 'x' comp)).map
      (fun comp => strSplitChar 'x' comp)).filter
      (fun parts => parts.length == 2 && parts.all surrealIsNumeric)).map
      (fun parts =>
        ({ width := digitsToNat (parts.headD "").toList
         , height := digitsToNat (parts.headD "").toList } : IconDims))
    |>.head?

/-- The icon row produced by the icon_file_added event from the file
row (stem, ext) and the fs_node path. -/
structure EventIconRow where
  name : String
  path : String
  svg : Bool
  xpm : Bool
  dims : Option IconDims
deriving DecidableEq

/-- The recognized image extension list of the icon_file_added event. -/
def recognizedImageExts : List String :=
  [ "png", "jpg", "jpeg", "gif", "webp", "pbm", "pam", "ppm", "pgm"
  , "tiff", "tif", "tga", "dds", "bmp", "ico", "hdr", "exr", "ff", "avif"
  , "qoi", "pcx", "svg", "xpm" ]

/-- Guard of the icon_file_added event on the file ext field. -/
def iconEventFires (ext : Option String) : Bool :=
  match ext with
  | some e => recognizedImageExts.contains e
  | none => false

/-- Body of the icon_file_added event: the created icon row. -/
def iconFileAddedRow (path stem : String) (ext : Option String) : EventIconRow :=
  { name := ((stem.replace "-default" "").replace "-symbolic" "").replace "-generic" ""
  , path := path
  , svg := ext == some "svg"
  , xpm := ext == some "xpm"
  , dims := dimsOfPath path }

/-! ## C8: the stop-channel probes

Two probe shapes exist in the source.  The tokio_mpmc one
(check_stop in src/leaper/src/db/fs.rs) first asks is_empty and only
awaits recv when the queue is nonempty; the oneshot one
(leaper-apps/src/lib.rs) calls try_recv and branches on its error. -/

inductive StopOutcome where
  | proceed
  | interrupted
  | lost
deriving DecidableEq

structure MpmcChannel where
  pending : Nat
  closed : Bool
deriving DecidableEq

inductive MpmcRecv where
  | msg
  | closedErr
deriving DecidableEq

/-- tokio_mpmc recv as observed sequentially: a queued message is
delivered, a closed empty channel errors, an open empty channel blocks
(none). -/
def mpmcRecv (c : MpmcChannel) : Option MpmcRecv :=
  if 0 < c.pending then some .msg
  else if c.closed then some .closedErr
  else none

/-- The check_stop probe over a tokio_mpmc receiver. -/
def checkStopMpmc (c : MpmcChannel) : Option StopOutcome :=
  if c.pending = 0 then some .proceed
  else
    match mpmcRecv c with
    | some .msg => some .interrupted
    | some .closedErr => some .lost
    | none => none

inductive OneshotProbe where
  | signal
  | empty
  | closed
deriving DecidableEq

/-- The check_stop probe over a tokio oneshot receiver (try_recv). -/
def checkStopOneshot : OneshotProbe → StopOutcome
  | .signal => .interrupted
  | .empty => .proceed
  | .closed => .lost

/-- Modelled from the spec: the behavior the spec prescribes for every
await-point probe, as a function of whether a signal is pending and
whether the channel is closed. -/
def checkStopSpec (pendingSignal closed : Bool) : StopOutcome :=
  if pendingSignal then .interrupted
  else if closed then .lost
  else .proceed

/-! ## C9: the icon crawl pre_filter

Transcription of the closure built in AppsFinder::search_paths
(src/leaper-launcher/src/search.rs): directories are rejected, paths
without an extension are rejected, and the raw extension must be a
member of the exts list; acceptance is signalled to fs::index by
returning None, rejection by Some(false). -/

def iconSearchExts : List String :=
  [ "png", "jpg", "jpeg", "gif", "webp", "pbm", "pam", "ppm", "pgm"
  , "tiff", "tif", "tga", "dds", "bmp", "ico", "hdr", "exr", "ff", "avif"
  , "qoi", "pcx", "svg", "xpm" ]

/-- The pre_filter closure; isDir is the OS probe on the path. -/
def preFilterSearchPaths (exts : List String) (isDir : Bool) (p : RustPath) :
    Option Bool :=
  if isDir then some false
  else
    match rustPathExtension p with
    | none => some false
    | some ext => if exts.contains ext then none else some false

/-- fs::index skips an entry exactly when pre_filter returns Some(false). -/
def indexAccepts (res : Option Bool) : Bool :=
  match res with
  | some false => false
  | _ => true

/-- Acceptance of a path by the icon crawl filter. -/
def iconCrawlAccepts (isDir : Bool) (p : RustPath) : Bool :=
  indexAccepts (preFilterSearchPaths iconSearchExts isDir p)

/-! ## shlex word splitting

Model of the shlex crate split function used for the Exec field:
whitespace separates words, single quotes are literal, double quotes
admit backslash escapes for dollar, backquote, double quote and
backslash, a backslash-newline is a continuation, a hash at word start
opens a comment, and an unterminated quote or trailing backslash makes
the whole split fail. -/

inductive ShMode where
  | norm
  | single
  | double
  | comment
deriving DecidableEq

def shlexIsWs (c : Char) : Bool := c = ' ' || c = '\t' || c = '\n'

def shlexRun (cs : List Char) (mode : ShMode) (inWord : Bool)
    (cur : List Char) (acc : List String) : Option (List String) :=
  match cs, mode with
  | [], .norm => some (if inWord then acc ++ [String.mk cur.reverse] else acc)
  | [], .single => none
  | [], .double => none
  | [], .comment => some acc
  | c :: rest, .norm =>
    if shlexIsWs c then
      if inWord then shlexRun rest .norm false [] (acc ++ [String.mk cur.reverse])
      else shlexRun rest .norm false [] acc
    else if c = '#' && !inWord then
      shlexRun rest .comment false [] acc
    else if c = '\'' then shlexRun rest .single true cur acc
    else if c = '"' then shlexRun rest .double true cur acc
    else if c = '\\' then
      match rest with
      | [] => none
      | c2 :: rest2 =>
        if c2 = '\n' then shlexRun rest2 .norm true cur acc
        else shlexRun rest2 .norm true (c2 :: cur) acc
    else shlexRun rest .norm true (c :: cur) acc
  | c :: rest, .single =>
    if c = '\'' then shlexRun rest .norm true cur acc
    else shlexRun rest .single true (c :: cur) acc
  | c :: rest, .double =>
    if c = '"' then shlexRun rest .norm true cur acc
    else if c = '\\' then
      match rest with
      | [] => none
      | c2 :: rest2 =>
        if c2 = '$' || c2 = Char.ofNat 96 || c2 = '"' || c2 = '\\' then
          shlexRun rest2 .double true (c2 :: cur) acc
        else if c2 = '\n' then shlexRun rest2 .double true cur acc
        else shlexRun rest2 .double true (c2 :: '\\' :: cur) acc
    else shlexRun rest .double true (c :: cur) acc
  | c :: rest, .comment =>
    if c = '\n' then shlexRun rest .norm false [] acc
    else shlexRun rest .comment false [] acc

/-- shlex::split. -/
def shlexSplit (s : String) : Option (List String) :=
  shlexRun s.toList .norm false [] []

/-! ## C6 and C7: CreateAppEntryQuery::new

The desktop entry, as far as this constructor reads it, is a record of
the localized full name, the raw Exec string, the outcomes of the two
library field-code parsers on that entry (abstract inputs here, since
they live in the freedesktop_desktop_entry crate), and the raw Icon
string. -/

inductive DBErr where
  | desktopEntryNoName (path : RustPath)
  | desktopEntryNoExec (path : RustPath)
  | desktopEntryParseExec (path : RustPath) (execStr : String)
deriving DecidableEq

structure DesktopEntryModel where
  fullName : Option String
  execStr : Option String
  parseExec : Option (List String)
  parseExecUris : Option (List String)
  icon : Option String
deriving DecidableEq

structure AppEntryQueryRow where
  path : RustPath
  name : String
  exec : List String
  iconName : Option String
deriving DecidableEq

/-- Condition selecting the field-code branch: some space-split
argument past the first contains a percent sign. -/
def hasPercentPastFirst (s : String) : Bool :=
  ((strSplitChar ' ' s).drop 1).any (fun t => strContainsChar '%' t)

/-- The exec computation of CreateAppEntryQuery::new, given Exec = es. -/
def parseExecField (path : RustPath) (e : DesktopEntryModel) (es : String) :
    Except DBErr (List String) :=
  if hasPercentPastFirst es then
    match e.parseExec with
    | some v => .ok v
    | none =>
      match e.parseExecUris with
      | some v => .ok v
      | none =>
        match shlexSplit es with
        | some v => .ok v
        | none => .error (.desktopEntryParseExec path es)
  else
    match shlexSplit es with
    | some v => .ok v
    | none => .error (.desktopEntryParseExec path es)

/-- CreateAppEntryQuery::new: the app row constructed from a parsed
desktop entry, or a row-level error. -/
def createAppEntryQueryNew (path : RustPath) (e : DesktopEntryModel) :
    Except DBErr AppEntryQueryRow :=
  let name :=
    match e.fullName with
    | some s => s.trim
    | none => "Unknown"
  match e.execStr with
  | none => .error (.desktopEntryNoExec path)
  | some es =>
    match parseExecField path e es with
    | .error err => .error err
    | .ok exec => .ok { path := path, name := name, exec := exec, iconName := e.icon }

/-! ## C3: the app and icon creation events

State machine over the app db: app rows, icon rows and has_icon edges.
Creating an app row fires app_entry_added (pick the icon whose name
matches icon_name, ordered by dims.width, dims.height, svg, limit one,
and relate); creating an icon row fires icon_added (pick one existing
app with matching icon_name, limit one, and relate).  SurrealDB orders
NONE before numbers, and a stable order with LIMIT 1 keeps the earliest
row among key ties. -/

structure AppRow where
  id : Nat
  name : String
  iconName : Option String
deriving DecidableEq

structure IconRow where
  id : Nat
  name : String
  svg : Bool
  dims : Option IconDims
deriving DecidableEq

structure AppsDB where
  apps : List AppRow
  icons : List IconRow
  hasIcon : List (Nat × Nat)
deriving DecidableEq

/-- SurrealDB ascending comparison on an optional number: NONE first. -/
def optNatLT : Option Nat → Option Nat → Bool
  | none, none => false
  | none, some _ => true
  | some _, none => false
  | some a, some b => a < b

def boolLT (a b : Bool) : Bool := !a && b

/-- Strict order of ORDER BY dims.width, dims.height, svg. -/
def iconOrderLT (i j : IconRow) : Bool :=
  optNatLT (i.dims.map (·.width)) (j.dims.map (·.width)) ||
    (i.dims.map (·.width) == j.dims.map (·.width) &&
      (optNatLT (i.dims.map (·.height)) (j.dims.map (·.height)) ||
        (i.dims.map (·.height) == j.dims.map (·.height) && boolLT i.svg j.svg)))

/-- First minimum of a list under a strict comparison: the row a stable
ORDER BY plus LIMIT 1 yields. -/
def firstMinBy (lt : α → α → Bool) : List α → Option α
  | [] => none
  | x :: xs => some (xs.foldl (fun b a => if lt a b then a else b) x)

/-- The icon picked by the app_entry_added event for an icon_name. -/
def selectIconFor (icons : List IconRow) (n : String) : Option IconRow :=
  firstMinBy iconOrderLT (icons.filter (fun i => i.name == n))

/-- CREATE app plus the app_entry_added event. -/
def createApp (s : AppsDB) (a : AppRow) : AppsDB :=
  let s1 : AppsDB := { s with apps := s.apps ++ [a] }
  match a.iconName with
  | none => s1
  | some n =>
    match selectIconFor s1.icons n with
    | some i => { s1 with hasIcon := s1.hasIcon ++ [(a.id, i.id)] }
    | none => s1

/-- CREATE icon plus the icon_added event (FROM ONLY app ... LIMIT 1). -/
def createIcon (s : AppsDB) (i : IconRow) : AppsDB :=
  let s1 : AppsDB := { s with icons := s.icons ++ [i] }
  match s1.apps.find? (fun a => a.iconName == some i.name) with
  | some a => { s1 with hasIcon := s1.hasIcon ++ [(a.id, i.id)] }
  | none => s1

inductive AppsEvent where
  | addApp (a : AppRow)
  | addIcon (i : IconRow)
deriving DecidableEq

def stepApps (s : AppsDB) : AppsEvent → AppsDB
  | .addApp a => createApp s a
  | .addIcon i => createIcon s i

def emptyAppsDB : AppsDB := ⟨[], [], []⟩

/-- Run a sequence of creation events from the empty database. -/
def runApps (t : List AppsEvent) : AppsDB := t.foldl stepApps emptyAppsDB

/-- Every app and icon pair that matches on the icon name, each being
the unique row carrying that name in its table, is joined by a
has_icon edge. -/
def HasIconInv (s : AppsDB) : Prop :=
  ∀ a i, a ∈ s.apps → i ∈ s.icons → a.iconName = some i.name →
    (∀ a' ∈ s.apps, a'.iconName = some i.name → a' = a) →
    (∀ i' ∈ s.icons, i'.name = i.name → i' = i) →
    (a.id, i.id) ∈ s.hasIcon

/-! ## C1, C2, C10: the indexer FSNode::add_db

The filesystem database state: fs_node rows, kind child rows, and the
relation edges, with a fresh-id counter.  OS probes are an environment
parameter; the Box-pinned recursion of the source is realized with a
fuel argument (fuel exhaustion returns none and stands for no result at
all, never for a committed partial answer a caller would observe). -/

structure ProbeInfo where
  isSymlink : Bool
  isDir : Bool
  isFile : Bool
  readLink : Option RustPath
deriving DecidableEq

abbrev FsEnv := RustPath → ProbeInfo

structure FsNodeRow where
  id : Nat
  path : RustPath
  name : String
deriving DecidableEq

structure FileRow where
  id : Nat
  stem : String
  ext : Option String
deriving DecidableEq

structure FsDB where
  nodes : List FsNodeRow
  dirs : List Nat
  files : List FileRow
  symlinks : List Nat
  isDirE : List (Nat × Nat)
  isFileE : List (Nat × Nat)
  isSymlinkE : List (Nat × Nat)
  isSymlinkOfE : List (Nat × Nat)
  isParentOfE : List (Nat × Nat)
  nextId : Nat
deriving DecidableEq

def emptyFsDB : FsDB := ⟨[], [], [], [], [], [], [], [], [], 0⟩

/-- FindNodeByPathQuery: SELECT VALUE id FROM ONLY fs_node
WHERE path == p LIMIT 1. -/
def lookupNode (s : FsDB) (p : RustPath) : Option Nat :=
  (s.nodes.find? (fun r => r.path == p)).map (·.id)

/-- CreateFsNodeQuery: CREATE fs_node SET path, name; the name is the
final path component, with the unwrap_or fallback of the source.  The
id of the created row is the nextId of the state passed in. -/
def addNode (s : FsDB) (p : RustPath) : FsDB :=
  { s with nodes := s.nodes ++ [⟨s.nextId, p, (rustFileName p).getD "[ERROR]"⟩]
         , nextId := s.nextId + 1 }

/-- CreateDirectoryQuery: CREATE directory; RELATE fs_node->is_dir. -/
def addDirFor (s : FsDB) (nid : Nat) : FsDB :=
  let did := s.nextId
  { s with dirs := s.dirs ++ [did]
         , isDirE := s.isDirE ++ [(nid, did)]
         , nextId := did + 1 }

/-- CreateFileQuery via File::add_db: CREATE file SET ext, stem;
RELATE fs_node->is_file.  The ext is the raw path extension. -/
def addFileFor (s : FsDB) (nid : Nat) (p : RustPath) : FsDB :=
  let fid := s.nextId
  { s with files := s.files ++ [⟨fid, (rustPathStem p).getD "[ERROR]", rustPathExtension p⟩]
         , isFileE := s.isFileE ++ [(nid, fid)]
         , nextId := fid + 1 }

/-- CreateSymlinkQuery: CREATE symlink; RELATE fs_node->is_symlink;
RELATE symlink->is_symlink_of->target. -/
def addSymlinkFor (s : FsDB) (nid targetId : Nat) : FsDB :=
  let sid := s.nextId
  { s with symlinks := s.symlinks ++ [sid]
         , isSymlinkE := s.isSymlinkE ++ [(nid, sid)]
         , isSymlinkOfE := s.isSymlinkOfE ++ [(sid, targetId)]
         , nextId := sid + 1 }

/-- RELATE parent->is_parent_of->child. -/
def addParentEdge (s : FsDB) (pid cid : Nat) : FsDB :=
  { s with isParentOfE := s.isParentOfE ++ [(pid, cid)] }

/-- FSNode::add_db: look the path up and return the existing id, or
create the node row, classify it (symlink probe first, then directory,
then file; a symlink whose target cannot be read produces nothing),
and optionally index the parent chain. -/
def addDb (env : FsEnv) : Nat → Bool → RustPath → FsDB → Option (FsDB × Nat)
  | 0, _, _, _ => none
  | fuel + 1, parents, p, s =>
    match lookupNode s p with
    | some id => some (s, id)
    | none =>
      let s1 := addNode s p
      let nid := s.nextId
      let afterKind : Option FsDB :=
        if (env p).isSymlink then
          match (env p).readLink with
          | none => some s1
          | some target =>
            match addDb env fuel parents target s1 with
            | none => none
            | some (s2, tid) => some (addSymlinkFor s2 nid tid)
        else if (env p).isDir then some (addDirFor s1 nid)
        else if (env p).isFile then some (addFileFor s1 nid p)
        else some s1
      match afterKind with
      | none => none
      | some s3 =>
        if parents then
          match rustParent p with
          | some pp =>
            match addDb env fuel true pp s3 with
            | none => none
            | some (s4, pid) => some (addParentEdge s4 pid nid, nid)
          | none => some (s3, nid)
        else some (s3, nid)

/-- The kind edges leaving one fs_node: its is_symlink, is_dir and
is_file edges. -/
def kindEdgesAt (s : FsDB) (n : Nat) :
    List (Nat × Nat) × List (Nat × Nat) × List (Nat × Nat) :=
  ( s.isSymlinkE.filter (fun e => e.1 == n)
  , s.isDirE.filter (fun e => e.1 == n)
  , s.isFileE.filter (fun e => e.1 == n) )

/-- The kind-edge counts of one fs_node: how many is_symlink, is_dir
and is_file edges leave it. -/
def kindTriple (s : FsDB) (n : Nat) : Nat × Nat × Nat :=
  ( (kindEdgesAt s n).1.length
  , (kindEdgesAt s n).2.1.length
  , (kindEdgesAt s n).2.2.length )

/-- The kind edges the classification step produces for a probe. -/
def expectedKindTriple (pr : ProbeInfo) : Nat × Nat × Nat :=
  if pr.isSymlink then
    match pr.readLink with
    | some _ => (1, 0, 0)
    | none => (0, 0, 0)
  else if pr.isDir then (0, 1, 0)
  else if pr.isFile then (0, 0, 1)
  else (0, 0, 0)

/-- A state is well formed when every kind edge leaves an already
allocated id. -/
def WellFormedFsDB (s : FsDB) : Prop :=
  (∀ e ∈ s.isSymlinkE, e.1 < s.nextId) ∧
  (∀ e ∈ s.isDirE, e.1 < s.nextId) ∧
  (∀ e ∈ s.isFileE, e.1 < s.nextId)

/-- One database state extends another: rows are only appended, the id
counter only grows, and the kind edges of every id below the bound are
untouched. -/
def ExtUpTo (bound : Nat) (a b : FsDB) : Prop :=
  (∃ t, b.nodes = a.nodes ++ t) ∧ a.nextId ≤ b.nextId ∧
    ∀ n, n < bound → kindEdgesAt b n = kindEdgesAt a n

/-! ## Concrete instances used by closed theorems -/

/-- Environment probing every path as a regular file. -/
def fileProbeEnv : FsEnv := fun _ => ⟨false, false, true, none⟩

/-- Environment probing every path as none of symlink, dir, file (a
special file such as a fifo, or a path deleted before the probe). -/
def noProbeEnv : FsEnv := fun _ => ⟨false, false, false, none⟩

/-- Environment where path a is a symlink pointing at directory b (the
symlink probe and the following dir probe both answer true for a). -/
def symlinkEnv : FsEnv := fun q =>
  if q = ["a"] then ⟨true, true, false, some ["b"]⟩
  else if q = ["b"] then ⟨false, true, false, none⟩
  else ⟨false, false, false, none⟩

/-- State after indexing usr/share/a.desktop as a file. -/
def desktopFileDB : FsDB :=
  ⟨[⟨0, ["usr", "share", "a.desktop"], "a.desktop"⟩], [],
    [⟨1, "a", some "desktop"⟩], [], [], [(0, 1)], [], [], [], 2⟩

/-- State after indexing dev/null under noProbeEnv. -/
def noKindDB : FsDB :=
  ⟨[⟨0, ["dev", "null"], "null"⟩], [], [], [], [], [], [], [], [], 1⟩

/-- State after indexing symlink a and its target directory b. -/
def symlinkDB : FsDB :=
  ⟨[⟨0, ["a"], "a"⟩, ⟨1, ["b"], "b"⟩], [2], [], [3], [(1, 2)], [],
    [(0, 3)], [(3, 1)], [], 4⟩

/-- State after indexing icons/app.PNG as a file. -/
def upperExtDB : FsDB :=
  ⟨[⟨0, ["icons", "app.PNG"], "app.PNG"⟩], [],
    [⟨1, "app", some "PNG"⟩], [], [], [(0, 1)], [], [], [], 2⟩

/-- A desktop entry whose Exec holds a quoted argument and no field
codes. -/
def shellEntry : DesktopEntryModel :=
  ⟨some "Shell", some "sh -c \"a b\"", none, none, none⟩

/-- A desktop entry with no name and a plain Exec. -/
def noNameEntry : DesktopEntryModel :=
  ⟨none, some "/bin/foo -x", none, none, some "foo"⟩

/-- A desktop entry with a name but no Exec at all. -/
def noExecEntry : DesktopEntryModel :=
  ⟨some "Foo", none, none, none, none⟩

/-- Two apps sharing one icon name, the icon arriving last. -/
def twoAppsOneIconTrace : List AppsEvent :=
  [ .addApp ⟨1, "A", some "foo"⟩
  , .addApp ⟨2, "B", some "foo"⟩
  , .addIcon ⟨3, "foo", false, none⟩ ]

/-- One icon arriving before its unique matching app. -/
def iconFirstTrace : List AppsEvent :=
  [ .addIcon ⟨2, "foo", false, none⟩
  , .addApp ⟨1, "A", some "foo"⟩ ]

/-! ## Auxiliary lemmas -/

theorem extUpTo_refl (bound : Nat) (a : FsDB) : ExtUpTo bound a a :=
  ⟨⟨[], (List.append_nil _).symm⟩, le_refl _, fun _ _ => rfl⟩

theorem extUpTo_trans {bound : Nat} {a b c : FsDB}
    (h1 : ExtUpTo bound a b) (h2 : ExtUpTo bound b c) : ExtUpTo bound a c := by
  obtain ⟨⟨t1, ht1⟩, hle1, hk1⟩ := h1
  obtain ⟨⟨t2, ht2⟩, hle2, hk2⟩ := h2
  exact ⟨⟨t1 ++ t2, by rw [ht2, ht1, List.append_assoc]⟩, le_trans hle1 hle2,
    fun n hn => (hk2 n hn).trans (hk1 n hn)⟩

theorem extUpTo_mono {b1 b2 : Nat} {a b : FsDB} (hb : b1 ≤ b2)
    (h : ExtUpTo b2 a b) : ExtUpTo b1 a b :=
  ⟨h.1, h.2.1, fun n hn => h.2.2 n (lt_of_lt_of_le hn hb)⟩

theorem extUpTo_addNode (bound : Nat) (s : FsDB) (p : RustPath) :
    ExtUpTo bound s (addNode s p) := by
  refine ⟨⟨_, rfl⟩, ?_, fun n _ => ?_⟩ <;> simp [addNode, kindEdgesAt]

theorem extUpTo_addDirFor {bound nid : Nat} (s : FsDB) (h : bound ≤ nid) :
    ExtUpTo bound s (addDirFor s nid) := by
  refine ⟨⟨[], by simp [addDirFor]⟩, by simp [addDirFor], fun n hn => ?_⟩
  have hne : (nid == n) = false := by
    simp only [beq_eq_false_iff_ne, ne_eq]
    omega
  simp [addDirFor, kindEdgesAt, List.filter_append, hne]

theorem extUpTo_addFileFor {bound nid : Nat} (s : FsDB) (p : RustPath)
    (h : bound ≤ nid) : ExtUpTo bound s (addFileFor s nid p) := by
  refine ⟨⟨[], by simp [addFileFor]⟩, by simp [addFileFor], fun n hn => ?_⟩
  have hne : (nid == n) = false := by
    simp only [beq_eq_false_iff_ne, ne_eq]
    omega
  simp [addFileFor, kindEdgesAt, List.filter_append, hne]

theorem extUpTo_addSymlinkFor {bound nid : Nat} (s : FsDB) (tid : Nat)
    (h : bound ≤ nid) : ExtUpTo bound s (addSymlinkFor s nid tid) := by
  refine ⟨⟨[], by simp [addSymlinkFor]⟩, by simp [addSymlinkFor], fun n hn => ?_⟩
  have hne : (nid == n) = false := by
    simp only [beq_eq_false_iff_ne, ne_eq]
    omega
  simp [addSymlinkFor, kindEdgesAt, List.filter_append, hne]

theorem extUpTo_addParentEdge (bound : Nat) (s : FsDB) (pid cid : Nat) :
    ExtUpTo bound s (addParentEdge s pid cid) := by
  refine ⟨⟨[], by simp [addParentEdge]⟩, by simp [addParentEdge], fun n _ => ?_⟩
  simp [addParentEdge, kindEdgesAt]

theorem kindEdgesAt_nextId_of_wf {s : FsDB} (h : WellFormedFsDB s) :
    kindEdgesAt s s.nextId = ([], [], []) := by
  obtain ⟨h1, h2, h3⟩ := h
  refine Prod.ext ?_ (Prod.ext ?_ ?_) <;> simp only [kindEdgesAt] <;>
    rw [List.filter_eq_nil_iff]
  · intro e he
    have := h1 e he
    simp only [beq_iff_eq]
    omega
  · intro e he
    have := h2 e he
    simp only [beq_iff_eq]
    omega
  · intro e he
    have := h3 e he
    simp only [beq_iff_eq]
    omega

/-- Main structural lemma about FSNode::add_db: a successful call only
extends the database, the returned id is found by a path lookup in the
resulting state, and on the create branch the created node carries
exactly the kind edges its probes dictate. -/
theorem addDb_main (env : FsEnv) : ∀ fuel parents p s sf id,
    addDb env fuel parents p s = some (sf, id) →
    ExtUpTo s.nextId s sf ∧ lookupNode sf p = some id ∧
      (lookupNode s p = none → WellFormedFsDB s →
        id = s.nextId ∧ kindTriple sf id = expectedKindTriple (env p)) := by
  intro fuel
  induction fuel with
  | zero =>
    intro parents p s sf id h
    simp [addDb] at h
  | succ fuel ih =>
    intro parents p s sf id h
    simp only [addDb] at h
    split at h
    · rename_i j hj
      simp only [Option.some.injEq, Prod.mk.injEq] at h
      obtain ⟨rfl, rfl⟩ := h
      refine ⟨extUpTo_refl _ _, hj, fun hnone _ => ?_⟩
      simp [hnone] at hj
    · rename_i hl
      split at h
      · simp at h
      rename_i s3 hclassify
      -- Facts about the classification stage, from addNode s p to s3.
      have hstage : ExtUpTo s.nextId (addNode s p) s3 ∧
          (addNode s p).nextId ≤ s3.nextId ∧
          (WellFormedFsDB s →
            kindTriple s3 s.nextId = expectedKindTriple (env p)) := by
        split at hclassify
        · -- symlink probe true
          rename_i hsym
          split at hclassify
          · -- read_link failed: no rows are written
            rename_i hlink
            simp only [Option.some.injEq] at hclassify
            subst hclassify
            refine ⟨extUpTo_refl _ _, le_refl _, fun hwf => ?_⟩
            have hz : kindEdgesAt (addNode s p) s.nextId = ([], [], []) := by
              have := kindEdgesAt_nextId_of_wf hwf
              simpa [addNode, kindEdgesAt] using this
            simp [kindTriple, hz, expectedKindTriple, hsym, hlink]
          · -- read_link target indexed recursively, then symlink rows
            rename_i target hlink
            split at hclassify
            · simp at hclassify
            rename_i s2 tid hrec
            simp only [Option.some.injEq] at hclassify
            subst hclassify
            obtain ⟨hext2, _, _⟩ := ih parents target (addNode s p) s2 tid hrec
            have hle2 : (addNode s p).nextId ≤ s2.nextId := hext2.2.1
            have hnid1 : (addNode s p).nextId = s.nextId + 1 := by simp [addNode]
            constructor
            · refine extUpTo_trans (extUpTo_mono ?_ hext2)
                (extUpTo_addSymlinkFor s2 tid (le_refl _))
              omega
            constructor
            · have : s2.nextId ≤ (addSymlinkFor s2 s.nextId tid).nextId := by
                simp [addSymlinkFor]
              omega
            intro hwf
            have hz : kindEdgesAt (addNode s p) s.nextId = ([], [], []) := by
              have := kindEdgesAt_nextId_of_wf hwf
              simpa [addNode, kindEdgesAt] using this
            have hpres : kindEdgesAt s2 s.nextId = ([], [], []) := by
              rw [hext2.2.2 s.nextId (by omega), hz]
            have hself : (s.nextId == s.nextId) = true := by simp
            have e1 : s2.isSymlinkE.filter (fun e => e.1 == s.nextId) = [] := by
              have := congrArg (fun x => x.1) hpres
              simpa [kindEdgesAt] using this
            have e2 : s2.isDirE.filter (fun e => e.1 == s.nextId) = [] := by
              have := congrArg (fun x => x.2.1) hpres
              simpa [kindEdgesAt] using this
            have e3 : s2.isFileE.filter (fun e => e.1 == s.nextId) = [] := by
              have := congrArg (fun x => x.2.2) hpres
              simpa [kindEdgesAt] using this
            simp [kindTriple, kindEdgesAt, addSymlinkFor, List.filter_append,
              hself, e1, e2, e3, expectedKindTriple, hsym, hlink]
        · -- symlink probe false
          rename_i hsym
          split at hclassify
          · -- directory probe true
            rename_i hdir
            simp only [Option.some.injEq] at hclassify
            subst hclassify
            refine ⟨extUpTo_addDirFor _ (le_refl _), by simp [addDirFor], fun hwf => ?_⟩
            have hz : kindEdgesAt (addNode s p) s.nextId = ([], [], []) := by
              have := kindEdgesAt_nextId_of_wf hwf
              simpa [addNode, kindEdgesAt] using this
            have hself : (s.nextId == s.nextId) = true := by simp
            have e1 : (addNode s p).isSymlinkE.filter (fun e => e.1 == s.nextId) = [] := by
              have := congrArg (fun x => x.1) hz
              simpa [kindEdgesAt] using this
            have e2 : (addNode s p).isDirE.filter (fun e => e.1 == s.nextId) = [] := by
              have := congrArg (fun x => x.2.1) hz
              simpa [kindEdgesAt] using this
            have e3 : (addNode s p).isFileE.filter (fun e => e.1 == s.nextId) = [] := by
              have := congrArg (fun x => x.2.2) hz
              simpa [kindEdgesAt] using this
            simp [kindTriple, kindEdgesAt, addDirFor, List.filter_append, hself,
              expectedKindTriple, hsym, hdir, e1, e2, e3]
          · -- directory probe false
            rename_i hdir
            split at hclassify
            · -- file probe true
              rename_i hfile
              simp only [Option.some.injEq] at hclassify
              subst hclassify
              refine ⟨extUpTo_addFileFor _ p (le_refl _), by simp [addFileFor], fun hwf => ?_⟩
              have hz : kindEdgesAt (addNode s p) s.nextId = ([], [], []) := by
                have := kindEdgesAt_nextId_of_wf hwf
                simpa [addNode, kindEdgesAt] using this
              have hself : (s.nextId == s.nextId) = true := by simp
              have e1 : (addNode s p).isSymlinkE.filter (fun e => e.1 == s.nextId) = [] := by
                have := congrArg (fun x => x.1) hz
                simpa [kindEdgesAt] using this
              have e2 : (addNode s p).isDirE.filter (fun e => e.1 == s.nextId) = [] := by
                have := congrArg (fun x => x.2.1) hz
                simpa [kindEdgesAt] using this
              have e3 : (addNode s p).isFileE.filter (fun e => e.1 == s.nextId) = [] := by
                have := congrArg (fun x => x.2.2) hz
                simpa [kindEdgesAt] using this
              simp [kindTriple, kindEdgesAt, addFileFor, List.filter_append, hself,
                expectedKindTriple, hsym, hdir, hfile, e1, e2, e3]
            · -- no probe matched: the node keeps no kind edge
              rename_i hfile
              simp only [Option.some.injEq] at hclassify
              subst hclassify
              refine ⟨extUpTo_refl _ _, le_refl _, fun hwf => ?_⟩
              have hz : kindEdgesAt (addNode s p) s.nextId = ([], [], []) := by
                have := kindEdgesAt_nextId_of_wf hwf
                simpa [addNode, kindEdgesAt] using this
              simp [kindTriple, hz, expectedKindTriple, hsym, hdir, hfile]
      obtain ⟨hextC, hleC, hkindC⟩ := hstage
      have hnid1 : (addNode s p).nextId = s.nextId + 1 := by simp [addNode]
      -- Facts about the parent stage, from s3 to the final state.
      have hparent : ExtUpTo (s.nextId + 1) s3 sf ∧ id = s.nextId := by
        split at h
        · -- parents = true
          split at h
          · -- the path has a parent to index
            rename_i pp hpp
            split at h
            · simp at h
            rename_i s4 pid hrec2
            simp only [Option.some.injEq, Prod.mk.injEq] at h
            obtain ⟨rfl, rfl⟩ := h
            obtain ⟨hext4, _, _⟩ := ih true pp s3 s4 pid hrec2
            refine ⟨extUpTo_trans (extUpTo_mono ?_ hext4)
              (extUpTo_addParentEdge _ s4 pid s.nextId), rfl⟩
            omega
          · simp only [Option.some.injEq, Prod.mk.injEq] at h
            obtain ⟨rfl, rfl⟩ := h
            exact ⟨extUpTo_refl _ _, rfl⟩
        · -- parents = false
          simp only [Option.some.injEq, Prod.mk.injEq] at h
          obtain ⟨rfl, rfl⟩ := h
          exact ⟨extUpTo_refl _ _, rfl⟩
      obtain ⟨hextP, rfl⟩ := hparent
      have hext : ExtUpTo s.nextId s sf :=
        extUpTo_trans (extUpTo_trans (extUpTo_addNode _ s p) hextC)
          (extUpTo_mono (by omega) hextP)
      refine ⟨hext, ?_, fun _ hwf => ⟨rfl, ?_⟩⟩
      · -- the created row is found by the lookup on the final state
        obtain ⟨t1, ht1⟩ := hextC.1
        obtain ⟨t2, ht2⟩ := hextP.1
        have hfindnil : s.nodes.find? (fun r => r.path == p) = none := by
          have : (s.nodes.find? (fun r => r.path == p)).map (·.id) = none := hl
          exact Option.map_eq_none'.mp this
        have hnodes : sf.nodes =
            s.nodes ++ [⟨s.nextId, p, (rustFileName p).getD "[ERROR]"⟩] ++ (t1 ++ t2) := by
          rw [ht2, ht1]
          simp [addNode]
        simp only [lookupNode, hnodes, List.find?_append, hfindnil]
        simp [List.find?]
      · -- kind edges of the created node survive the parent stage
        have hpres := hextP.2.2 s.nextId (by omega)
        have hk := hkindC hwf
        simpa [kindTriple, hpres] using hk

theorem foldlMinMem (lt : α → α → Bool) :
    ∀ (xs : List α) (x : α),
      xs.foldl (fun b a => if lt a b then a else b) x ∈ x :: xs := by
  intro xs
  induction xs with
  | nil =>
    intro x
    simp
  | cons y ys ih =>
    intro x
    simp only [List.foldl_cons]
    rcases List.mem_cons.mp (ih (if lt y x then y else x)) with h | h
    · rw [h]
      by_cases hc : lt y x <;> simp [hc]
    · exact List.mem_cons_of_mem _ (List.mem_cons_of_mem _ h)

theorem firstMinBy_mem {lt : α → α → Bool} {l : List α} {a : α}
    (h : firstMinBy lt l = some a) : a ∈ l := by
  cases l with
  | nil => simp [firstMinBy] at h
  | cons x xs =>
    simp only [firstMinBy, Option.some.injEq] at h
    subst h
    exact foldlMinMem lt xs x

theorem selectIconFor_mem {icons : List IconRow} {n : String} {i : IconRow}
    (h : selectIconFor icons n = some i) : i ∈ icons ∧ i.name = n := by
  have hmem := firstMinBy_mem h
  rw [List.mem_filter] at hmem
  exact ⟨hmem.1, by simpa using hmem.2⟩

theorem selectIconFor_isSome {icons : List IconRow} {n : String}
    (h : ∃ i ∈ icons, i.name = n) : (selectIconFor icons n).isSome := by
  obtain ⟨i, hi, hn⟩ := h
  have hmem : i ∈ icons.filter (fun j => j.name == n) :=
    List.mem_filter.mpr ⟨hi, by simp [hn]⟩
  cases hf : icons.filter (fun j => j.name == n) with
  | nil => rw [hf] at hmem; simp at hmem
  | cons x xs => simp [selectIconFor, firstMinBy, hf]

theorem stepApps_pres (s : AppsDB) (e : AppsEvent) (h : HasIconInv s) :
    HasIconInv (stepApps s e) := by
  cases e with
  | addApp a0 =>
    cases h1 : a0.iconName with
    | none =>
      intro a i ha hi hm hua hui
      simp only [stepApps, createApp, h1] at ha hi hm hua hui ⊢
      rcases List.mem_append.mp ha with hax | hax
      · exact h a i hax hi hm
          (fun b hb hbm => hua b (List.mem_append_left _ hb) hbm) hui
      · have hax : a = a0 := by simpa using hax
        subst hax
        rw [h1] at hm
        cases hm
    | some n =>
      cases h2 : selectIconFor s.icons n with
      | some j =>
        intro a i ha hi hm hua hui
        simp only [stepApps, createApp, h1, h2] at ha hi hm hua hui ⊢
        rcases List.mem_append.mp ha with hax | hax
        · have hedge := h a i hax hi hm
            (fun b hb hbm => hua b (List.mem_append_left _ hb) hbm) hui
          exact List.mem_append_left _ hedge
        · have hax : a = a0 := by simpa using hax
          subst hax
          rw [h1] at hm
          have hmn : n = i.name := by
            simpa using hm
          obtain ⟨hjmem, hjn⟩ := selectIconFor_mem h2
          have hji : j = i := hui j hjmem (by rw [hjn, hmn])
          subst hji
          exact List.mem_append_right _ (by simp)
      | none =>
        intro a i ha hi hm hua hui
        simp only [stepApps, createApp, h1, h2] at ha hi hm hua hui ⊢
        rcases List.mem_append.mp ha with hax | hax
        · exact h a i hax hi hm
            (fun b hb hbm => hua b (List.mem_append_left _ hb) hbm) hui
        · have hax : a = a0 := by simpa using hax
          subst hax
          rw [h1] at hm
          have hmn : n = i.name := by
            simpa using hm
          have hsome : (selectIconFor s.icons n).isSome :=
            selectIconFor_isSome ⟨i, hi, hmn.symm⟩
          rw [h2] at hsome
          simp at hsome
  | addIcon i0 =>
    cases h2 : s.apps.find? (fun a => a.iconName == some i0.name) with
    | some b =>
      intro a i ha hi hm hua hui
      simp only [stepApps, createIcon, h2] at ha hi hm hua hui ⊢
      rcases List.mem_append.mp hi with hix | hix
      · have hedge := h a i ha hix hm hua
          (fun j hj hjn => hui j (List.mem_append_left _ hj) hjn)
        exact List.mem_append_left _ hedge
      · have hix : i = i0 := by simpa using hix
        subst hix
        have hbmem : b ∈ s.apps := List.mem_of_find?_eq_some h2
        have hbm : b.iconName = some i.name := by
          simpa using List.find?_some h2
        have hba : b = a := hua b hbmem hbm
        subst hba
        exact List.mem_append_right _ (by simp)
    | none =>
      intro a i ha hi hm hua hui
      simp only [stepApps, createIcon, h2] at ha hi hm hua hui ⊢
      rcases List.mem_append.mp hi with hix | hix
      · exact h a i ha hix hm hua
          (fun j hj hjn => hui j (List.mem_append_left _ hj) hjn)
      · have hix : i = i0 := by simpa using hix
        subst hix
        have hsome : (s.apps.find? (fun x => x.iconName == some i.name)).isSome :=
          List.find?_isSome.mpr ⟨a, ha, by simp [hm]⟩
        rw [h2] at hsome
        simp at hsome

theorem runApps_inv (t : List AppsEvent) : HasIconInv (runApps t) := by
  have main : ∀ (u : List AppsEvent) (s : AppsDB),
      HasIconInv s → HasIconInv (u.foldl stepApps s) := by
    intro u
    induction u with
    | nil => intro s hs; exact hs
    | cons e u ih =>
      intro s hs
      exact ih _ (stepApps_pres s e hs)
  apply main
  intro a i ha _ _ _ _
  simp [emptyAppsDB] at ha

/-! ## Claim theorems -/

/-- C1: indexing is idempotent by path.  After a successful
FSNode::add_db call for a path, its lookup query finds the stored row,
and a second add_db call for the same path returns the same record id
while leaving the whole database state unchanged, so no duplicate
fs_node row and no duplicate kind-specific child row is created. -/
theorem c1_indexing_idempotent (env : FsEnv) (fuel1 fuel2 : Nat)
    (par1 par2 : Bool) (p : RustPath) (s0 s1 : FsDB) (id1 : Nat)
    (h : addDb env fuel1 par1 p s0 = some (s1, id1)) :
    lookupNode s1 p = some id1 ∧
      addDb env (fuel2 + 1) par2 p s1 = some (s1, id1) := by
  have hmain := addDb_main env fuel1 par1 p s0 s1 id1 h
  refine ⟨hmain.2.1, ?_⟩
  simp [addDb, hmain.2.1]

/-- Witness for C1 at a concrete desktop file path. -/
theorem c1_indexing_idempotent_witness :
    lookupNode desktopFileDB ["usr", "share", "a.desktop"] = some 0 ∧
      addDb fileProbeEnv (0 + 1) false ["usr", "share", "a.desktop"] desktopFileDB =
        some (desktopFileDB, 0) :=
  c1_indexing_idempotent fileProbeEnv 1 0 false false
    ["usr", "share", "a.desktop"] emptyFsDB desktopFileDB 0 (by decide)

/-- C2 counterexample: a path for which every OS probe answers false
(for example a fifo, or a path removed between walking and probing)
receives an fs_node but no kind edge at all, so the claimed count of
exactly one kind edge fails. -/
theorem c2_counterexample :
    addDb noProbeEnv 1 false ["dev", "null"] emptyFsDB = some (noKindDB, 0) ∧
      kindTriple noKindDB 0 = (0, 0, 0) ∧
      (kindTriple noKindDB 0).1 + (kindTriple noKindDB 0).2.1 +
        (kindTriple noKindDB 0).2.2 ≠ 1 := by
  decide

/-- C2 amended: a node created by the indexer carries exactly the kind
edges its probes dictate, in probe order symlink, then directory, then
file: one is_symlink edge when the symlink probe succeeds and the
target is readable (even when the directory probe would also succeed),
else one is_dir edge when the directory probe succeeds, else one
is_file edge when the file probe succeeds, and no kind edge otherwise
(unreadable symlink targets and paths matching no probe). -/
theorem c2_kind_edges (env : FsEnv) (fuel : Nat) (parents : Bool)
    (p : RustPath) (s sf : FsDB) (id : Nat)
    (hwf : WellFormedFsDB s) (hl : lookupNode s p = none)
    (h : addDb env fuel parents p s = some (sf, id)) :
    id = s.nextId ∧ kindTriple sf id = expectedKindTriple (env p) :=
  (addDb_main env fuel parents p s sf id h).2.2 hl hwf

/-- Witness for C2 on a symlink whose target is a directory: the
symlink probe wins and exactly one is_symlink edge is written. -/
theorem c2_kind_edges_witness :
    0 = emptyFsDB.nextId ∧
      kindTriple symlinkDB 0 = expectedKindTriple (symlinkEnv ["a"]) :=
  c2_kind_edges symlinkEnv 2 false ["a"] emptyFsDB symlinkDB 0
    (by simp [WellFormedFsDB, emptyFsDB]) (by decide) (by decide)

/-- C4 counterexample: the schema applied at initialization has no
unique index on fs_node(path). -/
theorem c4_counterexample :
    hasUniqueIndex leaperSchema "fs_node" "path" = false := by
  decide

/-- C4 amended: the schema defines unique indexes on
app(desktop_entry_path), app(name) and icon(path), but none on
fs_node(path); path uniqueness of fs_node rows is maintained only by
the lookup-before-create logic of the indexer. -/
theorem c4_unique_indexes :
    hasUniqueIndex leaperSchema "app" "desktop_entry_path" = true ∧
      hasUniqueIndex leaperSchema "app" "name" = true ∧
      hasUniqueIndex leaperSchema "icon" "path" = true ∧
      hasUniqueIndex leaperSchema "fs_node" "path" = false := by
  decide

/-- C5 counterexample: the event computes no dims for a 256x256@2
component (the part after the x is not numeric), takes both width and
height from the first number (16x32 yields width 16 and height 16, not
16 by 32), and uses the first matching component from the root rather
than the nearest ancestor (16x16 before 32x32 yields 16). -/
theorem c5_counterexample :
    dimsOfPath "/usr/share/icons/theme/256x256@2/y.png" = none ∧
      dimsOfPath "/t/16x32/f.png" = some ⟨16, 16⟩ ∧
      some (⟨16, 16⟩ : IconDims) ≠ some (⟨16, 32⟩ : IconDims) ∧
      dimsOfPath "/a/16x16/b/32x32/c.png" = some ⟨16, 16⟩ ∧
      (⟨16, 16⟩ : IconDims) ≠ (⟨32, 32⟩ : IconDims) := by
  decide

/-- C5 amended: dims come from the first path component, scanning from
the root and including the file name, that contains an x and splits on
x into exactly two numeric parts; both width and height are taken from
the first part, and components with a non-numeric part such as
256x256@2 are skipped.  On the spec examples: 16x16 yields 16 by 16,
256x256@2 yields nothing, scalable yields nothing. -/
theorem c5_dims :
    dimsOfPath "/usr/share/icons/hicolor/16x16/x.svg" = some ⟨16, 16⟩ ∧
      dimsOfPath "/usr/share/icons/hicolor/256x256@2/y.png" = none ∧
      dimsOfPath "/usr/share/icons/hicolor/scalable/z.svg" = none ∧
      dimsOfPath "/t/16x32/f.png" = some ⟨16, 16⟩ ∧
      dimsOfPath "/a/16x16/b/32x32/c.png" = some ⟨16, 16⟩ ∧
      (iconFileAddedRow "/usr/share/icons/hicolor/16x16/x.svg" "x"
        (some "svg")).dims = some ⟨16, 16⟩ := by
  decide

/-- C10 counterexample: the file row stores the raw extension, not its
lowercased form: indexing icons/app.PNG stores ext PNG while the claim
requires png. -/
theorem c10_counterexample :
    addDb fileProbeEnv 1 false ["icons", "app.PNG"] emptyFsDB =
        some (upperExtDB, 0) ∧
      upperExtDB.files = [⟨1, "app", some "PNG"⟩] ∧
      (rustPathExtension ["icons", "app.PNG"]).map asciiLower = some "png" ∧
      some "PNG" ≠ some "png" := by
  decide

/-- C10 amended: for a file-kind path, the created file row stores the
Rust file stem and the extension exactly as the path carries it, with
ext absent when the path has no extension; no lowercasing happens. -/
theorem c10_file_row (env : FsEnv) (fuel : Nat) (p : RustPath)
    (s sf : FsDB) (id : Nat)
    (hl : lookupNode s p = none)
    (hsym : (env p).isSymlink = false) (hdir : (env p).isDir = false)
    (hfile : (env p).isFile = true)
    (h : addDb env (fuel + 1) false p s = some (sf, id)) :
    id = s.nextId ∧
      sf.files = s.files ++
        [⟨s.nextId + 1, (rustPathStem p).getD "[ERROR]", rustPathExtension p⟩] := by
  simp only [addDb, hl, hsym, hdir, hfile, Bool.false_eq_true, if_false, if_true] at h
  simp only [Option.some.injEq, Prod.mk.injEq] at h
  obtain ⟨rfl, rfl⟩ := h
  refine ⟨rfl, ?_⟩
  simp [addFileFor, addNode]

/-- Witness for C10 at the concrete path icons/app.PNG. -/
theorem c10_file_row_witness :
    0 = emptyFsDB.nextId ∧
      upperExtDB.files = emptyFsDB.files ++
        [⟨emptyFsDB.nextId + 1,
          (rustPathStem ["icons", "app.PNG"]).getD "[ERROR]",
          rustPathExtension ["icons", "app.PNG"]⟩] :=
  c10_file_row fileProbeEnv 0 ["icons", "app.PNG"] emptyFsDB upperExtDB 0
    (by decide) (by decide) (by decide) (by decide) (by decide)

/-- C3 counterexample: two apps share an icon_name and the icon
arrives last; the icon_added event relates only one app (LIMIT 1), so
the second matching pair never receives its has_icon edge. -/
theorem c3_counterexample :
    (⟨2, "B", some "foo"⟩ : AppRow) ∈ (runApps twoAppsOneIconTrace).apps ∧
      (⟨3, "foo", false, none⟩ : IconRow) ∈ (runApps twoAppsOneIconTrace).icons ∧
      (⟨2, "B", some "foo"⟩ : AppRow).iconName =
        some (⟨3, "foo", false, none⟩ : IconRow).name ∧
      ((2, 3) ∉ (runApps twoAppsOneIconTrace).hasIcon) := by
  decide

/-- C3 amended: for a matching app and icon pair, when the app is the
only app carrying that icon_name and the icon the only icon carrying
that name, the two events guarantee the has_icon edge whichever row is
created first; with several matching rows the events relate only the
single row their LIMIT 1 query picks. -/
theorem c3_has_icon_unique_match (t : List AppsEvent) (a : AppRow) (i : IconRow)
    (ha : a ∈ (runApps t).apps) (hi : i ∈ (runApps t).icons)
    (hm : a.iconName = some i.name)
    (hua : ∀ b ∈ (runApps t).apps, b.iconName = some i.name → b = a)
    (hui : ∀ j ∈ (runApps t).icons, j.name = i.name → j = i) :
    (a.id, i.id) ∈ (runApps t).hasIcon :=
  runApps_inv t a i ha hi hm hua hui

/-- Witness for C3 on an icon-first trace with a unique match. -/
theorem c3_has_icon_unique_match_witness :
    ((1 : Nat), (2 : Nat)) ∈ (runApps iconFirstTrace).hasIcon :=
  c3_has_icon_unique_match iconFirstTrace ⟨1, "A", some "foo"⟩
    ⟨2, "foo", false, none⟩ (by decide) (by decide) (by decide)
    (by decide) (by decide)

/-- C6: when no argument past the first contains a percent sign the
exec list is the plain shell-word split of the Exec string, and
otherwise the field-code parser is tried first, then the parser with
empty uris, then plain shell-word splitting; in particular
sh -c "a b" splits into sh, -c, a b. -/
theorem c6_exec_parsing (path : RustPath) (e : DesktopEntryModel) (es : String)
    (h : e.execStr = some es) :
    (if hasPercentPastFirst es = true then
        (createAppEntryQueryNew path e).toOption.map (fun r => r.exec) =
          ((e.parseExec.orElse fun _ => e.parseExecUris).orElse fun _ =>
            shlexSplit es)
      else
        (createAppEntryQueryNew path e).toOption.map (fun r => r.exec) =
          shlexSplit es) ∧
      shlexSplit "sh -c \"a b\"" = some ["sh", "-c", "a b"] ∧
      hasPercentPastFirst "sh -c \"a b\"" = false := by
  refine ⟨?_, by decide, by decide⟩
  by_cases hp : hasPercentPastFirst es = true
  · simp only [hp, if_true]
    cases hpe : e.parseExec with
    | some v =>
      simp [createAppEntryQueryNew, parseExecField, Except.toOption, h, hp, hpe, Option.orElse]
    | none =>
      cases hpu : e.parseExecUris with
      | some v =>
        simp [createAppEntryQueryNew, parseExecField, Except.toOption, h, hp, hpe, hpu,
          Option.orElse]
      | none =>
        cases hs : shlexSplit es with
        | some v =>
          simp [createAppEntryQueryNew, parseExecField, Except.toOption, h, hp, hpe, hpu, hs,
            Option.orElse]
        | none =>
          simp [createAppEntryQueryNew, parseExecField, Except.toOption, h, hp, hpe, hpu, hs,
            Option.orElse]
  · simp only [hp, if_false]
    cases hs : shlexSplit es with
    | some v => simp [createAppEntryQueryNew, parseExecField, Except.toOption, h, hp, hs]
    | none => simp [createAppEntryQueryNew, parseExecField, Except.toOption, h, hp, hs]

/-- Witness for C6 at the concrete entry with Exec sh -c "a b". -/
theorem c6_exec_parsing_witness :
    (if hasPercentPastFirst "sh -c \"a b\"" = true then
        (createAppEntryQueryNew [] shellEntry).toOption.map (fun r => r.exec) =
          ((shellEntry.parseExec.orElse fun _ => shellEntry.parseExecUris).orElse
            fun _ => shlexSplit "sh -c \"a b\"")
      else
        (createAppEntryQueryNew [] shellEntry).toOption.map (fun r => r.exec) =
          shlexSplit "sh -c \"a b\"") ∧
      shlexSplit "sh -c \"a b\"" = some ["sh", "-c", "a b"] ∧
      hasPercentPastFirst "sh -c \"a b\"" = false :=
  c6_exec_parsing [] shellEntry "sh -c \"a b\"" rfl

/-- C7: a missing localized full name defaults the row name to Unknown
while construction succeeds, and a missing Exec field makes
construction fail with the no-exec error so no row is produced. -/
theorem c7_unknown_name_and_missing_exec (path : RustPath)
    (e : DesktopEntryModel) (es : String) (ws : List String) :
    (e.fullName = none → e.execStr = some es →
      hasPercentPastFirst es = false → shlexSplit es = some ws →
      createAppEntryQueryNew path e = .ok ⟨path, "Unknown", ws, e.icon⟩) ∧
    (e.execStr = none →
      createAppEntryQueryNew path e = .error (.desktopEntryNoExec path)) := by
  constructor
  · intro h1 h2 h3 h4
    simp [createAppEntryQueryNew, parseExecField, h1, h2, h3, h4]
  · intro h1
    simp [createAppEntryQueryNew, h1]

/-- Witness for C7: a nameless entry yields the Unknown row and an
exec-less entry yields the no-exec error. -/
theorem c7_unknown_name_and_missing_exec_witness :
    createAppEntryQueryNew [] noNameEntry =
        .ok ⟨[], "Unknown", ["/bin/foo", "-x"], some "foo"⟩ ∧
      createAppEntryQueryNew [] noExecEntry =
        .error (.desktopEntryNoExec []) :=
  ⟨(c7_unknown_name_and_missing_exec [] noNameEntry "/bin/foo -x"
      ["/bin/foo", "-x"]).1 rfl rfl (by decide) (by decide),
    (c7_unknown_name_and_missing_exec [] noExecEntry "" []).2 rfl⟩

/-- C8 counterexample: the tokio_mpmc check_stop probe sees a closed
channel with no pending signal as empty and proceeds, while the claim
requires the task to resolve with the lost-connection error. -/
theorem c8_counterexample :
    checkStopMpmc ⟨0, true⟩ = some StopOutcome.proceed ∧
      checkStopSpec false true = StopOutcome.lost ∧
      StopOutcome.proceed ≠ StopOutcome.lost := by
  decide

/-- C8 amended: the oneshot try_recv probe behaves exactly as the spec
prescribes (signal, empty, closed map to interrupted, proceed, lost),
but the mpmc probe behaves as the spec with the closed flag ignored: a
pending signal interrupts and anything else proceeds, so a closed
channel without a signal is never reported as a lost connection. -/
theorem c8_probe_behavior :
    (∀ pr : OneshotProbe,
        checkStopOneshot pr =
          checkStopSpec (pr == OneshotProbe.signal) (pr == OneshotProbe.closed)) ∧
      ∀ c : MpmcChannel,
        checkStopMpmc c = some (checkStopSpec (decide (0 < c.pending)) false) := by
  constructor
  · intro pr
    cases pr <;> rfl
  · intro c
    by_cases h : c.pending = 0
    · simp [checkStopMpmc, mpmcRecv, checkStopSpec, h]
    · have hp : 0 < c.pending := Nat.pos_of_ne_zero h
      simp [checkStopMpmc, mpmcRecv, checkStopSpec, h, hp]

/-- C9 counterexample: the icon crawl filter compares the raw
extension against the lowercase list, so icon.PNG is rejected even
though its lowercased extension png is in the recognized set. -/
theorem c9_counterexample :
    iconCrawlAccepts false ["icons", "icon.PNG"] = false ∧
      (rustPathExtension ["icons", "icon.PNG"]).map asciiLower = some "png" ∧
      iconSearchExts.contains "png" = true := by
  decide

/-- C9 amended: the icon crawl filter accepts a path exactly when the
path is not a directory and its extension, taken verbatim without case
folding, is a member of the extension list; directories, extensionless
paths and differently cased extensions are rejected. -/
theorem c9_filter_exact (isDir : Bool) (p : RustPath) :
    iconCrawlAccepts isDir p = true ↔
      isDir = false ∧ ∃ e, rustPathExtension p = some e ∧ e ∈ iconSearchExts := by
  cases isDir with
  | true => simp [iconCrawlAccepts, preFilterSearchPaths, indexAccepts]
  | false =>
    cases hext : rustPathExtension p with
    | none => simp [iconCrawlAccepts, preFilterSearchPaths, indexAccepts, hext]
    | some e =>
      by_cases he : iconSearchExts.contains e = true
      · have hmem : e ∈ iconSearchExts := List.elem_iff.mp he
        simp [iconCrawlAccepts, preFilterSearchPaths, indexAccepts, hext, he,
          hmem]
      · have hmem : e ∉ iconSearchExts := fun hm => he (List.elem_iff.mpr hm)
        simp only [iconCrawlAccepts, preFilterSearchPaths, indexAccepts, hext]
        constructor
        · intro hacc
          simp [hmem] at hacc
        · rintro ⟨_, e2, he2, hm2⟩
          cases he2
          exact absurd hm2 hmem

end Leaper
